import Mathlib

/-!
Verification of the request-routing and response-resolution pipeline of
tkc/go-json-server, as a shallow embedding in Lean 4.

The definitions below are direct translations of the Go sources:
  - `src/handler/handler.go` : `ResponseCache`, `Server`, `NewServer`,
    `extractPathParams`, `matchPath`, `HandleRequest`, `getJSONResponse`,
    `ClearCache`.
  - `src/config/config.go` : `Endpoint`, `Config`, `LoadConfig`,
    `Config.Validate`, `Config.Reload`.

Modelling conventions:
  - Go strings and byte slices are modelled as Lean `String`s; file contents
    read from disk are likewise `String`s.
  - The filesystem is an explicit parameter: `fs : String → Option String`
    maps a path to the file content when the file exists (`os.Open` +
    `io.ReadAll`), and `stat : String → Bool` models `os.Stat` existence
    checks.
  - `encoding/json.Unmarshal`-based well-formedness checking of substituted
    fixture text is abstracted as a parameter `jsonValid : String → Bool`;
    every theorem about the resolver holds for an arbitrary validator.
  - `time.Time` instants and `time.Duration` are modelled as integers
    (nanosecond counts); `t1.After t2` is `t1 > t2` and `t.Add d` is `t + d`.
  - Go maps are modelled as association lists where later insertions
    shadow earlier ones (`mapInsert` removes the old key), observed through
    `List.lookup`.
-/

set_option autoImplicit false

namespace GoJsonServer

/-- `Endpoint` from `src/config/config.go` (lines 25-32): one configured
route.  A `folder ≠ ""` endpoint is a static file mount; otherwise it is an
API route serving the fixture at `jsonPath`. -/
structure Endpoint where
  type : String := ""
  method : String := ""
  status : Int := 0
  path : String := ""
  jsonPath : String := ""
  folder : String := ""
deriving Repr, DecidableEq

/-- Go map assignment `m[k] = v` on an association-list model: the new pair
shadows (and removes) any previous pair with the same key. -/
def mapInsert {α : Type} (m : List (String × α)) (k : String) (v : α) :
    List (String × α) :=
  (k, v) :: m.filter (fun p => p.1 ≠ k)

/-- A character matched by `\w` in Go's RE2 (`[0-9A-Za-z_]`). -/
def isWordChar (c : Char) : Bool :=
  c.isAlphanum || c = '_'

/-- Scanner for all matches of the Go regexp `:([\w]+)` over a character
list (leftmost, non-overlapping, greedy), returning the captured groups.
Models `regexp.FindAllStringSubmatch` as used by
`Server.extractPathParams` (`handler.go` lines 136-147).  `inName` says a
`':'` has been seen and the (greedy) run of word characters after it is
being collected in `acc`, most recent first; a capture is emitted when the
run ends, provided it is non-empty — exactly when `:([\w]+)` matches
there.  A `':'` always starts a new potential match. -/
def extractScan : List Char → Bool → List Char → List String
  | [], inName, acc =>
    if inName && !acc.isEmpty then [String.mk acc.reverse] else []
  | c :: rest, true, acc =>
    if isWordChar c then extractScan rest true (c :: acc)
    else
      (if acc.isEmpty then [] else [String.mk acc.reverse]) ++
        extractScan rest (c = ':') []
  | c :: rest, false, _ => extractScan rest (c = ':') []

/-- `Server.extractPathParams` (`handler.go` lines 136-147): the parameter
names occurring in a path pattern, e.g. `"/users/:id"` yields `["id"]`. -/
def extractPathParams (path : String) : List String :=
  extractScan path.data false []

/-- Specification helper: the character list contains a `':'` immediately
followed by a word character — exactly when the Go regexp `:([\w]+)` has
a match in it. -/
def hasColonWord : List Char → Bool
  | [] => false
  | [_] => false
  | a :: b :: rest => (a = ':' && isWordChar b) || hasColonWord (b :: rest)

/-- `strings.Split(s, "/")` on the character-list level: splits at every
`'/'`, yielding one (possibly empty) piece more than the number of
slashes. -/
def splitSlashL : List Char → List (List Char)
  | [] => [[]]
  | c :: rest =>
    let r := splitSlashL rest
    if c = '/' then [] :: r else (c :: r.headD []) :: r.tail

/-- `strings.Split(s, "/")` as used by `Server.matchPath`
(`handler.go` lines 164-165). -/
def splitSlash (s : String) : List String :=
  (splitSlashL s.data).map String.mk

/-- `strings.HasPrefix` modelled on the character lists (for UTF-8 text,
byte-level prefixes and character-level prefixes coincide). -/
def strStartsWith (s pre : String) : Bool :=
  pre.data.isPrefixOf s.data

/-- The Go slice `s[n:]` for a character count `n` (used only as `s[1:]`
after a one-byte `':'`, where byte count and character count agree). -/
def strDrop (s : String) (n : Nat) : String :=
  ⟨s.data.drop n⟩

/-- The per-segment loop of `Server.matchPath` (`handler.go` lines
173-182): pattern segments and path segments are walked in lockstep;
a `:`-prefixed pattern segment binds the name after the colon to the path
segment, any other pattern segment must be equal to the path segment or the
whole match fails.  Called on lists of equal length. -/
def matchSegs : List String → List String →
    List (String × String) → Option (List (String × String))
  | [], _, acc => some acc
  | p :: ps, q :: qs, acc =>
    if strStartsWith p ":" then matchSegs ps qs (mapInsert acc (strDrop p 1) q)
    else if p = q then matchSegs ps qs acc
    else none
  | _ :: _, [], _ => none

/-- `Server.matchPath` (`handler.go` lines 151-185).  `index` models the
server's `PathParams` map; only its key set is consulted
(`_, hasParams := s.PathParams[pattern]`).  Returns the `matched` flag and
the extracted bindings (an empty binding list models Go's `nil` map). -/
def matchPath (index : List (String × List String)) (pattern path : String) :
    Bool × List (String × String) :=
  if pattern = path then (true, [])
  else if (index.lookup pattern).isNone then (false, [])
  else
    let patternParts := splitSlash pattern
    let pathParts := splitSlash path
    if patternParts.length ≠ pathParts.length then (false, [])
    else
      match matchSegs patternParts pathParts [] with
      | some paramValues => (true, paramValues)
      | none => (false, [])

/-- The body of the endpoint loop of `NewServer` (`handler.go` lines
122-128): a non-file-server endpoint whose path yields at least one
parameter name is recorded in the `PathParams` map. -/
def pathParamsStep (m : List (String × List String)) (ep : Endpoint) :
    List (String × List String) :=
  if ep.folder = "" then
    let params := extractPathParams ep.path
    if params.isEmpty then m else mapInsert m ep.path params
  else m

/-- The `PathParams` index built by `NewServer` (`handler.go` lines
121-129): every non-file-server endpoint whose path contains at least one
`:name` parameter is mapped to its parameter-name list. -/
def pathParamsIndex (eps : List Endpoint) : List (String × List String) :=
  eps.foldl pathParamsStep []

/-- `cachedResponse` from `handler.go` (lines 51-54): cached bytes plus
their expiration instant. -/
structure CachedResponse where
  content : String
  expiration : Int
deriving Repr, DecidableEq

/-- The entry map of `ResponseCache` (`handler.go` lines 45-48). -/
abbrev CacheMap : Type := List (String × CachedResponse)

/-- `ResponseCache.Get` (`handler.go` lines 64-80) at instant `now`:
a present, unexpired entry is returned; an expired entry is deleted from
the map and reported as not found (Go's `delete(c.cache, key)`).  The
returned map is the cache state after the call. -/
def cacheGet (cache : CacheMap) (key : String) (now : Int) :
    Option String × CacheMap :=
  match List.lookup key cache with
  | none => (none, cache)
  | some cached =>
    if now > cached.expiration then
      (none, List.filter (fun p => p.1 ≠ key) cache)
    else (some cached.content, cache)

/-- `ResponseCache.Set` (`handler.go` lines 83-91) at instant `now`:
stores/overwrites the entry with `expiration = now + ttl`. -/
def cacheSet (cache : CacheMap) (key content : String) (now ttl : Int) :
    CacheMap :=
  mapInsert cache key ⟨content, now + ttl⟩

/-- `ResponseCache.Clear` (`handler.go` lines 94-98). -/
def cacheClear (_cache : CacheMap) : CacheMap := []

/-- Resolver errors of `Server.getJSONResponse`
(`handler.go` lines 274-283). -/
inductive ResolveError
  | jsonFileNotFound
deriving Repr, DecidableEq

/-- `strings.ReplaceAll(s, old, new)` on the character-list level for a
non-empty `old`: the leftmost occurrence of `old` is replaced and the scan
resumes after the replacement (occurrences do not overlap).  An empty
`old` leaves the text unchanged here; the caller below only ever passes
patterns beginning with `':'`. -/
def replaceAllL (pat rep : List Char) : List Char → List Char
  | [] => []
  | c :: rest =>
    if pat.isPrefixOf (c :: rest) && !pat.isEmpty then
      rep ++ replaceAllL pat rep ((c :: rest).drop pat.length)
    else c :: replaceAllL pat rep rest
termination_by l => l.length
decreasing_by
  · rename_i h
    have hp : 0 < pat.length := by
      cases pat with
      | nil => simp at h
      | cons a l => simp
    simp only [List.length_drop, List.length_cons]
    omega
  · simp

/-- `strings.ReplaceAll` on strings. -/
def replaceAll (s pat rep : String) : String :=
  ⟨replaceAllL pat.data rep.data s.data⟩

/-- The substitution loop of `Server.getJSONResponse` (`handler.go` lines
291-295): for each binding `(param, value)`, every occurrence of the
substring `":" ++ param` is replaced by `value`
(`strings.ReplaceAll`). -/
def substParams (content : String) (pathParams : List (String × String)) :
    String :=
  pathParams.foldl (fun acc pv => replaceAll acc (":" ++ pv.1) pv.2) content

/-- `Server.getJSONResponse` (`handler.go` lines 273-309).  `fs` models the
filesystem (`os.Open` + `io.ReadAll`), `jsonValid` models
`json.Unmarshal` succeeding on the substituted text.  With no bindings the
raw content is returned as is; otherwise the parameters are substituted
and, if the result no longer validates as JSON, the original content is
returned instead (the warning log is irrelevant to the result). -/
def getJSONResponse (fs : String → Option String)
    (jsonValid : String → Bool) (jsonPath : String)
    (pathParams : List (String × String)) : Except ResolveError String :=
  match fs jsonPath with
  | none => .error .jsonFileNotFound
  | some content =>
    if pathParams.isEmpty then .ok content
    else
      let contentStr := substParams content pathParams
      if jsonValid contentStr then .ok contentStr else .ok content

/-- `Config` from `src/config/config.go` (lines 35-43), the plain data
fields (the mutex is the concurrency discipline, not data). -/
structure ConfigData where
  host : String := ""
  port : Int := 0
  logLevel : String := ""
  logFormat : String := ""
  logPath : String := ""
  endpoints : List Endpoint := []
deriving Repr, DecidableEq

/-- The `Server` struct (`handler.go` lines 101-108), restricted to the
state the routing pipeline reads and writes: the active configuration
(`Config.GetEndpoints` reads its endpoint list), the response cache, the
cache TTL, and the parametrized-pattern index `PathParams`. -/
structure Server where
  config : ConfigData
  cache : CacheMap
  cacheTTL : Int
  pathParams : List (String × List String)

/-- `NewServer` (`handler.go` lines 111-132): the `PathParams` index is
built once, from the endpoint list current at construction. -/
def NewServer (cfg : ConfigData) (cacheTTL : Int) : Server :=
  { config := cfg
    cache := []
    cacheTTL := cacheTTL
    pathParams := pathParamsIndex cfg.endpoints }

/-- The observable outcome of `Server.HandleRequest`: the OPTIONS
short-circuit, delegation to a static file server for a mount endpoint, or
a JSON response with a status code and a body. -/
inductive HandleResult
  | options
  | fileMount (ep : Endpoint)
  | json (status : Int) (body : String)
deriving Repr, DecidableEq

/-- The file-server scan of `Server.HandleRequest` (`handler.go` lines
202-209): the first endpoint with a non-empty folder whose path is a
prefix of the request path. -/
def findFileMount (eps : List Endpoint) (path : String) : Option Endpoint :=
  eps.find? (fun ep => ep.folder ≠ "" && strStartsWith path ep.path)

/-- The body of the matched-endpoint branch of `Server.HandleRequest`
(`handler.go` lines 220-263): consult the cache under key
`method ++ ":" ++ path`; on a hit answer with the endpoint's status and
the cached bytes; on a miss resolve the fixture — a resolver error yields
a 500 with a generic body, success yields the endpoint's status and the
resolved bytes, which are stored into the cache with the server's TTL. -/
def apiRespond (fs : String → Option String) (jsonValid : String → Bool)
    (s : Server) (ep : Endpoint) (method path : String)
    (pathParams : List (String × String)) (now : Int) :
    HandleResult × Server :=
  let cacheKey := method ++ ":" ++ path
  match cacheGet s.cache cacheKey now with
  | (some cachedBody, cache) =>
    (.json ep.status cachedBody, { s with cache := cache })
  | (none, cache) =>
    match getJSONResponse fs jsonValid ep.jsonPath pathParams with
    | .error _ =>
      (.json 500 "\x7b\"error\": \"Internal server error\"\x7d",
       { s with cache := cache })
    | .ok respBody =>
      (.json ep.status respBody,
       { s with cache := cacheSet cache cacheKey respBody now s.cacheTTL })

/-- The API-endpoint loop of `Server.HandleRequest` (`handler.go` lines
212-264): file-server endpoints are skipped; the first endpoint whose path
matches and whose method equals the request method answers; if none does,
the fallthrough is a 404 with body `{"error": "Not found"}`. -/
def apiLoop (fs : String → Option String) (jsonValid : String → Bool)
    (s : Server) (method path : String) (now : Int) :
    List Endpoint → HandleResult × Server
  | [] => (.json 404 "\x7b\"error\": \"Not found\"\x7d", s)
  | ep :: rest =>
    if ep.folder ≠ "" then apiLoop fs jsonValid s method path now rest
    else
      let mr := matchPath s.pathParams ep.path path
      if mr.1 && ep.method = method then
        apiRespond fs jsonValid s ep method path mr.2 now
      else apiLoop fs jsonValid s method path now rest

/-- `Server.HandleRequest` (`handler.go` lines 188-270): OPTIONS requests
are answered immediately; otherwise the endpoint list is scanned first for
a matching file mount, then for a matching API route; with no match the
response is a 404. -/
def handleRequest (fs : String → Option String) (jsonValid : String → Bool)
    (s : Server) (method path : String) (now : Int) :
    HandleResult × Server :=
  if method = "OPTIONS" then (.options, s)
  else
    match findFileMount s.config.endpoints path with
    | some ep => (.fileMount ep, s)
    | none => apiLoop fs jsonValid s method path now s.config.endpoints

/-- `Server.ClearCache` (`handler.go` lines 312-315). -/
def clearCache (s : Server) : Server :=
  { s with cache := cacheClear s.cache }

/-- Configuration errors of `src/config/config.go` (lines 16-22), plus the
read/parse failures of `LoadConfig` (lines 47-55). -/
inductive ConfigError
  | parseError
  | noEndpoints
  | emptyPath
  | duplicateEndpoint
  | jsonFileNotFound
  | folderNotFound
deriving Repr, DecidableEq

/-- The defaulting block of `LoadConfig` (`config.go` lines 57-66): a zero
port becomes 3000, an empty log level "info", an empty log format "text".
No other field is touched. -/
def applyDefaults (c : ConfigData) : ConfigData :=
  { c with
    port := if c.port = 0 then 3000 else c.port
    logLevel := if c.logLevel = "" then "info" else c.logLevel
    logFormat := if c.logFormat = "" then "text" else c.logFormat }

/-- The endpoint loop of `Config.Validate` (`config.go` lines 84-110).
`stat` models `os.Stat` existence, `pathMethods` the accumulated
`path + ":" + method` key set.  An empty path fails; a file-mount endpoint
only needs its folder to exist and is exempt from the duplicate check; an
API endpoint fails on a repeated key, then on a configured but missing
fixture file. -/
def validateLoop (stat : String → Bool) (pathMethods : List String) :
    List Endpoint → Option ConfigError
  | [] => none
  | ep :: rest =>
    if ep.path = "" then some .emptyPath
    else if ep.folder ≠ "" then
      if !stat ep.folder then some .folderNotFound
      else validateLoop stat pathMethods rest
    else
      let pathMethod := ep.path ++ ":" ++ ep.method
      if pathMethod ∈ pathMethods then some .duplicateEndpoint
      else if ep.jsonPath ≠ "" && !stat ep.jsonPath then
        some .jsonFileNotFound
      else validateLoop stat (pathMethod :: pathMethods) rest

/-- `Config.Validate` (`config.go` lines 77-113): an empty endpoint list
fails with `NoEndpoints`, otherwise the endpoints are checked in list
order and the first failure aborts. -/
def validateConfig (stat : String → Bool) (c : ConfigData) :
    Option ConfigError :=
  if c.endpoints.isEmpty then some .noEndpoints
  else validateLoop stat [] c.endpoints

/-- `LoadConfig` (`config.go` lines 46-74).  `parsed` is the result of
`os.ReadFile` + `json.Unmarshal` on the config file (`none` models a read
or parse failure); on success, defaults are applied and the result is
validated before it is returned. -/
def loadConfig (stat : String → Bool) (parsed : Option ConfigData) :
    Except ConfigError ConfigData :=
  match parsed with
  | none => .error .parseError
  | some c =>
    let c := applyDefaults c
    match validateConfig stat c with
    | some e => .error e
    | none => .ok c

/-- `Config.Reload` (`config.go` lines 116-133): load the candidate
configuration; a failure leaves the active configuration unchanged and
returns the error; on success every field is replaced by the candidate's.
Returns the active configuration after the call and the error, if any. -/
def reloadConfig (stat : String → Bool) (parsed : Option ConfigData)
    (c : ConfigData) : ConfigData × Option ConfigError :=
  match loadConfig stat parsed with
  | .error e => (c, some e)
  | .ok newConfig =>
    ({ c with
        host := newConfig.host
        port := newConfig.port
        logLevel := newConfig.logLevel
        logFormat := newConfig.logFormat
        logPath := newConfig.logPath
        endpoints := newConfig.endpoints },
     none)

/-- The effect of `Config.Reload` (`config.go` lines 116-133) on the
server state: the server's `Config` fields are replaced, and nothing else
— in particular `Server.PathParams` is written nowhere outside
`NewServer` (`handler.go` line 126). -/
def serverReload (stat : String → Bool) (parsed : Option ConfigData)
    (s : Server) : Server × Option ConfigError :=
  let r := reloadConfig stat parsed s.config
  ({ s with config := r.1 }, r.2)

/-- The state shared by the config store and the response cache. -/
structure SystemState where
  config : ConfigData
  cache : CacheMap

/-- Modelled from the spec: the server wiring that reacts to a reload is
not under `src/` (only `Config.Reload`, the `WatchConfig` trigger and
`Server.ClearCache` are); per the spec, "every successful `reload`
additionally triggers `ResponseCache.clear()` exactly once", and a failed
reload leaves the active table and the cache untouched.  The `Nat`
component counts the `clear()` invocations performed. -/
def reloadSystem (stat : String → Bool) (parsed : Option ConfigData)
    (st : SystemState) : SystemState × Option ConfigError × Nat :=
  match reloadConfig stat parsed st.config with
  | (c, some e) => ({ st with config := c }, some e, 0)
  | (c, none) => ({ config := c, cache := cacheClear st.cache }, none, 1)

/-- The validation procedure as the spec words it (§4.5): endpoints are
checked in list order; an endpoint with a blank path fails; a file mount
is exempt from the duplicate check and needs its folder on disk; an API
endpoint fails when its `(path, method)` pair already appeared among the
earlier API endpoints, then when its configured fixture file is missing
from disk.  Used to compare the source's string-keyed duplicate check
against the claimed pair-wise one. -/
def specValidateLoop (stat : String → Bool)
    (prev : List (String × String)) : List Endpoint → Option ConfigError
  | [] => none
  | ep :: rest =>
    if ep.path = "" then some .emptyPath
    else if ep.folder ≠ "" then
      if !stat ep.folder then some .folderNotFound
      else specValidateLoop stat prev rest
    else if (ep.path, ep.method) ∈ prev then some .duplicateEndpoint
    else if ep.jsonPath ≠ "" && !stat ep.jsonPath then some .jsonFileNotFound
    else specValidateLoop stat ((ep.path, ep.method) :: prev) rest

/-- The spec's validation taxonomy (§4.5) at the top level: an empty
endpoint list fails with `NoEndpoints`, otherwise the per-endpoint checks
run in list order. -/
def specValidateConfig (stat : String → Bool) (c : ConfigData) :
    Option ConfigError :=
  if c.endpoints.isEmpty then some .noEndpoints
  else specValidateLoop stat [] c.endpoints

/-- A `:name` segment in the sense of the spec: a segment whose text is a
colon followed by a parameter name beginning with a word character (so
that the Go regexp `:([\w]+)` finds it). -/
def isParamSeg (s : String) : Bool :=
  match s.data with
  | c :: d :: _ => c = ':' && isWordChar d
  | _ => false

/-- Specification helper: the `(name, value)` pairs a pattern/path segment
pair contributes, in segment order — the binding each `:`-segment of the
pattern creates from the corresponding path segment. -/
def paramPairs : List String → List String → List (String × String)
  | p :: ps, q :: qs =>
    if strStartsWith p ":" then (strDrop p 1, q) :: paramPairs ps qs
    else paramPairs ps qs
  | _, _ => []

/-- Specification helper: insert a list of pairs into an association-list
map, in order, with Go map-assignment (shadowing) semantics. -/
def insertPairs (acc : List (String × String))
    (prs : List (String × String)) : List (String × String) :=
  prs.foldl (fun m kv => mapInsert m kv.1 kv.2) acc

/-! Concrete objects used to instantiate the theorems below, taken from
the spec's running example: one `GET /user/:id` route serving the fixture
`user.json` = `{"id":":id","name":"John"}`. -/

/-- The example fixture content `{"id":":id","name":"John"}`. -/
def exampleFixture : String :=
  "\x7b\"id\":\":id\",\"name\":\"John\"\x7d"

/-- The example fixture after substituting the binding `id = 42`. -/
def exampleSubstituted : String :=
  "\x7b\"id\":\"42\",\"name\":\"John\"\x7d"

/-- A one-file filesystem holding only `user.json`. -/
def exampleFs : String → Option String :=
  fun p => if p = "user.json" then some exampleFixture else none

/-- A JSON validator that accepts everything. -/
def allValid : String → Bool := fun _ => true

/-- An `os.Stat` model under which every path exists. -/
def allExist : String → Bool := fun _ => true

/-- The example route `{method: "GET", path: "/user/:id", status: 200,
jsonPath: "user.json"}`. -/
def exampleEndpoint : Endpoint :=
  { method := "GET", status := 200, path := "/user/:id"
    jsonPath := "user.json" }

/-- The example configuration carrying just the example route. -/
def exampleConfig : ConfigData :=
  { endpoints := [exampleEndpoint] }

/-- The example server, freshly constructed from the example
configuration with a TTL of 1000. -/
def exampleServer : Server := NewServer exampleConfig 1000

/-! ## Theorems -/

theorem lookup_filter_ne {α : Type} (m : List (String × α)) (k x : String)
    (hx : x ≠ k) :
    List.lookup x (m.filter (fun p => p.1 ≠ k)) = List.lookup x m := by
  induction m with
  | nil => rfl
  | cons a rest ih =>
    obtain ⟨a1, a2⟩ := a
    by_cases ha : a1 = k
    · subst ha
      rw [List.filter_cons_of_neg (by simp)]
      have hbeq : (x == a1) = false := beq_eq_false_iff_ne.mpr hx
      simp only [List.lookup, hbeq, ih]
    · rw [List.filter_cons_of_pos (by simp [ha])]
      by_cases hxa : x = a1
      · subst hxa
        simp [List.lookup]
      · have hbeq : (x == a1) = false := beq_eq_false_iff_ne.mpr hxa
        simp only [List.lookup, hbeq, ih]

theorem lookup_mapInsert {α : Type} (m : List (String × α)) (k x : String)
    (v : α) :
    List.lookup x (mapInsert m k v) =
      if x = k then some v else List.lookup x m := by
  unfold mapInsert
  by_cases hx : x = k
  · subst hx
    simp [List.lookup]
  · have hbeq : (x == k) = false := beq_eq_false_iff_ne.mpr hx
    simp only [List.lookup, hbeq, if_neg hx]
    exact lookup_filter_ne m k x hx

theorem extractScan_ne_nil_of_acc (l : List Char) :
    ∀ acc : List Char, acc ≠ [] → extractScan l true acc ≠ [] := by
  induction l with
  | nil =>
    intro acc hacc
    cases acc with
    | nil => exact absurd rfl hacc
    | cons a as => simp [extractScan]
  | cons c rest ih =>
    intro acc hacc
    simp only [extractScan]
    by_cases hw : isWordChar c
    · rw [if_pos hw]
      exact ih (c :: acc) (by simp)
    · rw [if_neg hw]
      cases acc with
      | nil => exact absurd rfl hacc
      | cons a as => simp

theorem extractScan_ne_nil_of_hasColonWord :
    ∀ (l : List Char) (st : Bool) (acc : List Char),
      hasColonWord l = true → extractScan l st acc ≠ [] := by
  intro l
  induction l with
  | nil =>
    intro st acc h
    simp [hasColonWord] at h
  | cons a rest ih =>
    intro st acc h
    cases rest with
    | nil => simp [hasColonWord] at h
    | cons b rest2 =>
      rw [hasColonWord] at h
      simp only [Bool.or_eq_true] at h
      have hsub : extractScan (b :: rest2) (decide (a = ':')) [] ≠ [] := by
        rcases h with h1 | h2
        · rw [Bool.and_eq_true] at h1
          obtain ⟨ha, hb⟩ := h1
          rw [ha]
          simp only [extractScan]
          rw [if_pos hb]
          exact extractScan_ne_nil_of_acc rest2 [b] (by simp)
        · exact ih (decide (a = ':')) [] h2
      cases st with
      | false =>
        simp only [extractScan]
        exact hsub
      | true =>
        simp only [extractScan]
        by_cases hw : isWordChar a
        · rw [if_pos hw]
          exact extractScan_ne_nil_of_acc (b :: rest2) (a :: acc) (by simp)
        · rw [if_neg hw]
          intro hc
          exact hsub (List.append_eq_nil.mp hc).2

theorem splitSlashL_ne_nil : ∀ l : List Char, splitSlashL l ≠ [] := by
  intro l
  cases l with
  | nil => simp [splitSlashL]
  | cons c rest =>
    simp only [splitSlashL]
    by_cases hc : c = '/'
    · simp [hc]
    · simp [hc]

theorem splitSlashL_head_leads :
    ∀ (l piece : List Char) (pieces : List (List Char)),
      splitSlashL l = piece :: pieces → ∃ suf, l = piece ++ suf := by
  intro l
  induction l with
  | nil =>
    intro piece pieces h
    simp only [splitSlashL] at h
    injection h with h1 _
    exact ⟨[], by rw [← h1]; rfl⟩
  | cons b rest ih =>
    intro piece pieces h
    simp only [splitSlashL] at h
    rcases hsp : splitSlashL rest with _ | ⟨p2, ps2⟩
    · exact absurd hsp (splitSlashL_ne_nil rest)
    · rw [hsp] at h
      by_cases hb : b = '/'
      · rw [if_pos hb] at h
        injection h with h1 _
        exact ⟨b :: rest, by rw [← h1]; rfl⟩
      · rw [if_neg hb] at h
        injection h with h1 _
        obtain ⟨suf, hsuf⟩ := ih p2 ps2 hsp
        refine ⟨suf, ?_⟩
        rw [← h1]
        simp only [List.headD_cons, List.cons_append]
        rw [← hsuf]

theorem mem_splitSlashL_decompose :
    ∀ (l seg : List Char), seg ∈ splitSlashL l →
      ∃ pre suf, l = pre ++ seg ++ suf := by
  intro l
  induction l with
  | nil =>
    intro seg hmem
    simp only [splitSlashL, List.mem_singleton] at hmem
    exact ⟨[], [], by simp [hmem]⟩
  | cons a rest ih =>
    intro seg hmem
    simp only [splitSlashL] at hmem
    rcases hsp : splitSlashL rest with _ | ⟨piece, pieces⟩
    · exact absurd hsp (splitSlashL_ne_nil rest)
    · rw [hsp] at hmem
      by_cases ha : a = '/'
      · rw [if_pos ha] at hmem
        rcases List.mem_cons.mp hmem with h1 | h1
        · exact ⟨[], a :: rest, by rw [h1]; rfl⟩
        · obtain ⟨pre, suf, hps⟩ := ih seg (by rw [hsp]; exact h1)
          exact ⟨a :: pre, suf, by simp [hps]⟩
      · rw [if_neg ha] at hmem
        simp only [List.headD_cons, List.tail_cons] at hmem
        rcases List.mem_cons.mp hmem with h1 | h1
        · obtain ⟨suf, hsuf⟩ := splitSlashL_head_leads rest piece pieces hsp
          refine ⟨[], suf, ?_⟩
          rw [h1]
          simp [hsuf]
        · obtain ⟨pre, suf, hps⟩ :=
            ih seg (by rw [hsp]; exact List.mem_cons_of_mem piece h1)
          exact ⟨a :: pre, suf, by simp [hps]⟩

theorem hasColonWord_append_right :
    ∀ (l y : List Char), hasColonWord l = true →
      hasColonWord (l ++ y) = true := by
  intro l
  induction l with
  | nil => intro y h; simp [hasColonWord] at h
  | cons a rest ih =>
    intro y h
    cases rest with
    | nil => simp [hasColonWord] at h
    | cons b rest2 =>
      rw [hasColonWord] at h
      simp only [Bool.or_eq_true] at h
      show hasColonWord (a :: b :: (rest2 ++ y)) = true
      rw [hasColonWord]
      simp only [Bool.or_eq_true]
      rcases h with h1 | h2
      · exact Or.inl h1
      · exact Or.inr (ih y h2)

theorem hasColonWord_append_left :
    ∀ (x l : List Char), hasColonWord l = true →
      hasColonWord (x ++ l) = true := by
  intro x
  induction x with
  | nil => intro l h; exact h
  | cons a x ih =>
    intro l h
    have hx : hasColonWord (x ++ l) = true := ih l h
    rcases hxl : x ++ l with _ | ⟨b, t⟩
    · rw [hxl] at hx
      simp [hasColonWord] at hx
    · rw [hxl] at hx
      show hasColonWord (a :: (x ++ l)) = true
      rw [hxl, hasColonWord]
      simp [hx]

theorem extractPathParams_ne_nil (pattern : String)
    (hpar : ∃ seg ∈ splitSlash pattern, isParamSeg seg = true) :
    extractPathParams pattern ≠ [] := by
  obtain ⟨seg, hmem, hps⟩ := hpar
  obtain ⟨segl, hsegl, hmk⟩ := List.mem_map.mp hmem
  have hshape : ∃ c cs, segl = ':' :: c :: cs ∧ isWordChar c = true := by
    rw [← hmk] at hps
    unfold isParamSeg at hps
    rcases segl with _ | ⟨c, _ | ⟨d, cs⟩⟩
    · simp at hps
    · simp at hps
    · simp only [Bool.and_eq_true, decide_eq_true_eq] at hps
      exact ⟨d, cs, by rw [hps.1], hps.2⟩
  obtain ⟨c, cs, hcs, hw⟩ := hshape
  obtain ⟨pre, suf, hdecomp⟩ := mem_splitSlashL_decompose pattern.data segl hsegl
  have hcw : hasColonWord pattern.data = true := by
    rw [hdecomp, hcs, List.append_assoc]
    apply hasColonWord_append_left
    apply hasColonWord_append_right
    rw [hasColonWord, hw]
    simp
  exact extractScan_ne_nil_of_hasColonWord pattern.data false [] hcw

theorem lookup_pathParamsIndex_isSome (pattern : String) :
    ∀ (eps : List Endpoint) (acc : List (String × List String)),
      ((∃ ep ∈ eps, ep.folder = "" ∧ ep.path = pattern ∧
          extractPathParams ep.path ≠ []) ∨
        (List.lookup pattern acc).isSome = true) →
      (List.lookup pattern (eps.foldl pathParamsStep acc)).isSome = true := by
  intro eps
  induction eps with
  | nil =>
    intro acc h
    rcases h with h | h
    · obtain ⟨ep, hm, _⟩ := h
      cases hm
    · exact h
  | cons ep rest ih =>
    intro acc h
    rw [List.foldl_cons]
    apply ih
    rcases h with h | h
    · obtain ⟨e, hm, hfol, hpath, hext⟩ := h
      rcases List.mem_cons.mp hm with he | he
      · right
        subst he
        unfold pathParamsStep
        rw [if_pos hfol]
        have hemp : (extractPathParams e.path).isEmpty = false := by
          cases hcase : extractPathParams e.path with
          | nil => exact absurd hcase hext
          | cons x xs => rfl
        simp only [hemp, Bool.false_eq_true, if_false]
        rw [lookup_mapInsert, if_pos hpath.symm]
        rfl
      · left
        exact ⟨e, he, hfol, hpath, hext⟩
    · right
      unfold pathParamsStep
      by_cases hfol : ep.folder = ""
      · rw [if_pos hfol]
        cases hemp : (extractPathParams ep.path).isEmpty with
        | true => simpa [hemp] using h
        | false =>
          simp only [hemp, Bool.false_eq_true, if_false]
          rw [lookup_mapInsert]
          by_cases hp : pattern = ep.path
          · rw [if_pos hp]
            rfl
          · rw [if_neg hp]
            exact h
      · rw [if_neg hfol]
        exact h

theorem matchSegs_eq_insertPairs :
    ∀ (ps qs : List String) (acc : List (String × String)),
      ps.length = qs.length →
      (∀ pq ∈ ps.zip qs, strStartsWith pq.1 ":" = false → pq.1 = pq.2) →
      matchSegs ps qs acc = some (insertPairs acc (paramPairs ps qs)) := by
  intro ps
  induction ps with
  | nil =>
    intro qs acc hlen _
    cases qs with
    | nil => rfl
    | cons q qs => simp at hlen
  | cons p ps ih =>
    intro qs acc hlen hlit
    cases qs with
    | nil => simp at hlen
    | cons q qs =>
      simp only [matchSegs, paramPairs]
      by_cases hsw : strStartsWith p ":" = true
      · rw [if_pos hsw, if_pos hsw]
        exact ih qs (mapInsert acc (strDrop p 1) q) (by simpa using hlen)
          (fun pq hpq h =>
            hlit pq (by rw [List.zip_cons_cons]; exact List.mem_cons_of_mem _ hpq) h)
      · have hsw' : strStartsWith p ":" = false := by
          simpa using hsw
        rw [hsw']
        simp only [Bool.false_eq_true, if_false]
        have hpq : p = q :=
          hlit (p, q) (by rw [List.zip_cons_cons]; exact List.mem_cons_self _ _)
            hsw'
        rw [if_pos hpq]
        exact ih qs acc (by simpa using hlen)
          (fun pq hpq2 h =>
            hlit pq (by rw [List.zip_cons_cons]; exact List.mem_cons_of_mem _ hpq2) h)

theorem matchSegs_eq_none :
    ∀ (ps qs : List String) (acc : List (String × String)),
      (∃ pq ∈ ps.zip qs, strStartsWith pq.1 ":" = false ∧ pq.1 ≠ pq.2) →
      matchSegs ps qs acc = none := by
  intro ps
  induction ps with
  | nil =>
    intro qs acc h
    obtain ⟨pq, hm, _⟩ := h
    simp at hm
  | cons p ps ih =>
    intro qs acc h
    cases qs with
    | nil =>
      obtain ⟨pq, hm, _⟩ := h
      simp at hm
    | cons q qs =>
      obtain ⟨pq, hm, hsw, hne⟩ := h
      rw [List.zip_cons_cons] at hm
      rcases List.mem_cons.mp hm with hh | hh
      · rw [hh] at hsw hne
        simp only [matchSegs]
        rw [if_neg (by simp [hsw]), if_neg hne]
      · simp only [matchSegs]
        by_cases hp : strStartsWith p ":" = true
        · rw [if_pos hp]
          exact ih qs _ ⟨pq, hh, hsw, hne⟩
        · rw [if_neg hp]
          by_cases hpq : p = q
          · rw [if_pos hpq]
            exact ih qs acc ⟨pq, hh, hsw, hne⟩
          · rw [if_neg hpq]

theorem lookup_append_or {α : Type} (l₁ l₂ : List (String × α)) (k : String) :
    List.lookup k (l₁ ++ l₂) = (List.lookup k l₁).or (List.lookup k l₂) := by
  induction l₁ with
  | nil => simp [List.lookup]
  | cons a rest ih =>
    obtain ⟨a1, a2⟩ := a
    by_cases h : k = a1
    · subst h
      simp [List.lookup]
    · have hbeq : (k == a1) = false := beq_eq_false_iff_ne.mpr h
      simp [List.lookup, hbeq, ih]

theorem lookup_insertPairs (prs : List (String × String)) :
    ∀ (acc : List (String × String)) (k : String),
      List.lookup k (insertPairs acc prs) =
        (List.lookup k prs.reverse).or (List.lookup k acc) := by
  induction prs with
  | nil =>
    intro acc k
    simp [insertPairs, List.lookup]
  | cons kv prs ih =>
    intro acc k
    obtain ⟨k₀, v₀⟩ := kv
    show List.lookup k (insertPairs (mapInsert acc k₀ v₀) prs) = _
    rw [ih (mapInsert acc k₀ v₀) k, lookup_mapInsert, List.reverse_cons,
      lookup_append_or prs.reverse [(k₀, v₀)] k, Option.or_assoc]
    congr 1
    by_cases h : k = k₀
    · subst h
      simp [List.lookup]
    · have hbeq : (k == k₀) = false := beq_eq_false_iff_ne.mpr h
      simp [List.lookup, hbeq, h]

theorem nodupKeys_lookup (l : List (String × String)) :
    ∀ (k v : String), (l.map Prod.fst).Nodup → (k, v) ∈ l →
      List.lookup k l = some v := by
  induction l with
  | nil =>
    intro k v _ hm
    cases hm
  | cons a rest ih =>
    intro k v hnd hm
    obtain ⟨a1, a2⟩ := a
    rcases List.mem_cons.mp hm with hh | hh
    · have h1 : k = a1 ∧ v = a2 := by simpa [Prod.ext_iff] using hh
      obtain ⟨rfl, rfl⟩ := h1
      simp [List.lookup]
    · have hk : k ≠ a1 := by
        intro he
        subst he
        have hmem : k ∈ rest.map Prod.fst :=
          List.mem_map.mpr ⟨(k, v), hh, rfl⟩
        simp only [List.map_cons, List.nodup_cons] at hnd
        exact hnd.1 hmem
      have hbeq : (k == a1) = false := beq_eq_false_iff_ne.mpr hk
      simp only [List.lookup, hbeq]
      refine ih k v ?_ hh
      simp only [List.map_cons, List.nodup_cons] at hnd
      exact hnd.2

theorem mem_insertPairs (prs : List (String × String)) :
    ∀ (acc : List (String × String)) (kv : String × String),
      kv ∈ insertPairs acc prs → kv ∈ acc ∨ kv ∈ prs := by
  induction prs with
  | nil =>
    intro acc kv h
    exact Or.inl h
  | cons p prs ih =>
    intro acc kv h
    rcases ih (mapInsert acc p.1 p.2) kv h with hh | hh
    · unfold mapInsert at hh
      rcases List.mem_cons.mp hh with h1 | h1
      · right
        rw [h1]
        exact List.mem_cons_self _ _
      · left
        exact List.mem_of_mem_filter h1
    · right
      exact List.mem_cons_of_mem p hh

theorem mem_paramPairs :
    ∀ (ps qs : List String) (kv : String × String),
      kv ∈ paramPairs ps qs →
      ∃ pq ∈ ps.zip qs, strStartsWith pq.1 ":" = true ∧
        strDrop pq.1 1 = kv.1 ∧ pq.2 = kv.2 := by
  intro ps
  induction ps with
  | nil =>
    intro qs kv h
    cases qs with
    | nil => cases h
    | cons q qs => cases h
  | cons p ps ih =>
    intro qs kv h
    cases qs with
    | nil => cases h
    | cons q qs =>
      simp only [paramPairs] at h
      by_cases hsw : strStartsWith p ":" = true
      · rw [if_pos hsw] at h
        rcases List.mem_cons.mp h with h1 | h1
        · refine ⟨(p, q),
            by rw [List.zip_cons_cons]; exact List.mem_cons_self _ _,
            hsw, ?_, ?_⟩
          · rw [h1]
          · rw [h1]
        · obtain ⟨pq, hm, hrest⟩ := ih qs kv h1
          exact ⟨pq,
            by rw [List.zip_cons_cons]; exact List.mem_cons_of_mem _ hm,
            hrest⟩
      · rw [if_neg hsw] at h
        obtain ⟨pq, hm, hrest⟩ := ih qs kv h
        exact ⟨pq,
          by rw [List.zip_cons_cons]; exact List.mem_cons_of_mem _ hm,
          hrest⟩

theorem paramPairs_mem_of_zip :
    ∀ (ps qs : List String) (pq : String × String),
      pq ∈ ps.zip qs → strStartsWith pq.1 ":" = true →
      (strDrop pq.1 1, pq.2) ∈ paramPairs ps qs := by
  intro ps
  induction ps with
  | nil =>
    intro qs pq h _
    simp at h
  | cons p ps ih =>
    intro qs pq h hsw
    cases qs with
    | nil => simp at h
    | cons q qs =>
      rw [List.zip_cons_cons] at h
      rcases List.mem_cons.mp h with h1 | h1
      · subst h1
        simp only [paramPairs]
        rw [if_pos hsw]
        exact List.mem_cons_self _ _
      · have hmem := ih qs pq h1 hsw
        simp only [paramPairs]
        by_cases hsw2 : strStartsWith p ":" = true
        · rw [if_pos hsw2]
          exact List.mem_cons_of_mem _ hmem
        · rw [if_neg hsw2]
          exact hmem

theorem paramPairs_keys :
    ∀ (ps qs : List String), ps.length = qs.length →
      (paramPairs ps qs).map Prod.fst =
        (ps.filter (fun s => strStartsWith s ":")).map
          (fun s => strDrop s 1) := by
  intro ps
  induction ps with
  | nil =>
    intro qs h
    cases qs with
    | nil => rfl
    | cons q qs => simp at h
  | cons p ps ih =>
    intro qs h
    cases qs with
    | nil => simp at h
    | cons q qs =>
      simp only [paramPairs]
      by_cases hsw : strStartsWith p ":" = true
      · rw [if_pos hsw, List.filter_cons_of_pos (by simp [hsw])]
        simp only [List.map_cons]
        rw [ih qs (by simpa using h)]
      · have hsw' : strStartsWith p ":" = false := by simpa using hsw
        rw [if_neg (by simp [hsw']), List.filter_cons_of_neg (by simp [hsw'])]
        exact ih qs (by simpa using h)

theorem findFileMount_cons_of_skip (e : Endpoint) (l : List Endpoint)
    (path : String) (h : e.folder ≠ "" → strStartsWith path e.path = false) :
    findFileMount (e :: l) path = findFileMount l path := by
  unfold findFileMount
  rw [List.find?_cons_of_neg]
  by_cases hf : e.folder = "" <;> simp [hf, h]

theorem findFileMount_cons_of_hit (e : Endpoint) (l : List Endpoint)
    (path : String) (hf : e.folder ≠ "")
    (hp : strStartsWith path e.path = true) :
    findFileMount (e :: l) path = some e := by
  unfold findFileMount
  rw [List.find?_cons_of_pos]
  simp [hf, hp]

theorem findFileMount_append_skip (l₁ l₂ : List Endpoint) (path : String)
    (h : ∀ e ∈ l₁, e.folder ≠ "" → strStartsWith path e.path = false) :
    findFileMount (l₁ ++ l₂) path = findFileMount l₂ path := by
  induction l₁ with
  | nil => rfl
  | cons e l ih =>
    rw [List.cons_append,
      findFileMount_cons_of_skip e (l ++ l₂) path (h e (by simp))]
    exact ih fun e' he' => h e' (by simp [he'])

theorem findFileMount_eq_none (l : List Endpoint) (path : String)
    (h : ∀ e ∈ l, e.folder ≠ "" → strStartsWith path e.path = false) :
    findFileMount l path = none := by
  have := findFileMount_append_skip l [] path h
  rwa [List.append_nil] at this

theorem apiLoop_cons_of_skip (fs : String → Option String)
    (jsonValid : String → Bool) (s : Server) (method path : String)
    (now : Int) (e : Endpoint) (rest : List Endpoint)
    (h : e.folder = "" →
      ¬((matchPath s.pathParams e.path path).1 = true ∧ e.method = method)) :
    apiLoop fs jsonValid s method path now (e :: rest) =
      apiLoop fs jsonValid s method path now rest := by
  simp only [apiLoop]
  by_cases hf : e.folder = ""
  · rw [if_neg (by simp [hf])]
    have hc := h hf
    by_cases hm : (matchPath s.pathParams e.path path).1 = true
    · have hne : e.method ≠ method := fun hh => hc ⟨hm, hh⟩
      simp [hne]
    · simp only [Bool.not_eq_true] at hm
      simp [hm]
  · rw [if_pos (by simp [hf])]

theorem apiLoop_append_skip (fs : String → Option String)
    (jsonValid : String → Bool) (s : Server) (method path : String)
    (now : Int) (l₁ l₂ : List Endpoint)
    (h : ∀ e ∈ l₁, e.folder = "" →
      ¬((matchPath s.pathParams e.path path).1 = true ∧ e.method = method)) :
    apiLoop fs jsonValid s method path now (l₁ ++ l₂) =
      apiLoop fs jsonValid s method path now l₂ := by
  induction l₁ with
  | nil => rfl
  | cons e l ih =>
    rw [List.cons_append,
      apiLoop_cons_of_skip fs jsonValid s method path now e (l ++ l₂)
        (h e (by simp)),
      ih fun e' he' => h e' (by simp [he'])]

/-- C1: for every configured API pattern containing a `:name` segment
(with pairwise-distinct parameter names) and every request path,
`matchPath` first short-circuits to matched=true with no bindings on
exact string equality; otherwise a differing `/`-split segment count
gives matched=false; with equal counts, every pattern segment starting
with `:` binds the name after the colon to the corresponding path segment
(uncoerced), every other segment must equal the path segment exactly or
the whole match fails, and on success exactly the parameter bindings are
returned with matched=true. -/
theorem C1_pathmatcher_contract
    (eps : List Endpoint) (pattern path : String)
    (hreg : ∃ ep ∈ eps, ep.folder = "" ∧ ep.path = pattern)
    (hpar : ∃ seg ∈ splitSlash pattern, isParamSeg seg = true)
    (hnodup : (((splitSlash pattern).filter
        (fun s => strStartsWith s ":")).map (fun s => strDrop s 1)).Nodup) :
    (pattern = path →
      matchPath (pathParamsIndex eps) pattern path = (true, [])) ∧
    ((splitSlash pattern).length ≠ (splitSlash path).length →
      matchPath (pathParamsIndex eps) pattern path = (false, [])) ∧
    (pattern ≠ path →
      (splitSlash pattern).length = (splitSlash path).length →
      (((∀ pq ∈ (splitSlash pattern).zip (splitSlash path),
            strStartsWith pq.1 ":" = false → pq.1 = pq.2) →
        (matchPath (pathParamsIndex eps) pattern path).1 = true ∧
        (∀ pq ∈ (splitSlash pattern).zip (splitSlash path),
            strStartsWith pq.1 ":" = true →
            List.lookup (strDrop pq.1 1)
              (matchPath (pathParamsIndex eps) pattern path).2 =
              some pq.2) ∧
        (∀ kv ∈ (matchPath (pathParamsIndex eps) pattern path).2,
            ∃ pq ∈ (splitSlash pattern).zip (splitSlash path),
              strStartsWith pq.1 ":" = true ∧ strDrop pq.1 1 = kv.1 ∧
              pq.2 = kv.2)) ∧
      ((∃ pq ∈ (splitSlash pattern).zip (splitSlash path),
            strStartsWith pq.1 ":" = false ∧ pq.1 ≠ pq.2) →
        matchPath (pathParamsIndex eps) pattern path = (false, [])))) := by
  have hsome : (List.lookup pattern (pathParamsIndex eps)).isSome = true := by
    obtain ⟨ep, hm, hfol, hpath⟩ := hreg
    exact lookup_pathParamsIndex_isSome pattern eps []
      (Or.inl ⟨ep, hm, hfol, hpath,
        by rw [hpath]; exact extractPathParams_ne_nil pattern hpar⟩)
  have hnone : (List.lookup pattern (pathParamsIndex eps)).isNone = false := by
    rcases hl : List.lookup pattern (pathParamsIndex eps) with _ | v
    · rw [hl] at hsome
      simp at hsome
    · rfl
  refine ⟨?_, ?_, ?_⟩
  · intro h
    unfold matchPath
    rw [if_pos h]
  · intro hlen
    have hne : pattern ≠ path := by
      intro he
      rw [he] at hlen
      exact hlen rfl
    simp only [matchPath]
    rw [if_neg hne, hnone]
    simp only [Bool.false_eq_true, if_false]
    rw [if_pos hlen]
  · intro hne hlen
    constructor
    · intro hlits
      have hms := matchSegs_eq_insertPairs (splitSlash pattern)
        (splitSlash path) [] hlen hlits
      have hmp : matchPath (pathParamsIndex eps) pattern path =
          (true, insertPairs []
            (paramPairs (splitSlash pattern) (splitSlash path))) := by
        simp only [matchPath]
        rw [if_neg hne, hnone]
        simp only [Bool.false_eq_true, if_false]
        rw [if_neg (by simp [hlen]), hms]
      refine ⟨by rw [hmp], ?_, ?_⟩
      · intro pq hpq hsw
        rw [hmp]
        show List.lookup (strDrop pq.1 1)
          (insertPairs [] (paramPairs (splitSlash pattern)
            (splitSlash path))) = some pq.2
        rw [lookup_insertPairs]
        have hkeys : ((paramPairs (splitSlash pattern)
            (splitSlash path)).map Prod.fst).Nodup := by
          rw [paramPairs_keys _ _ hlen]
          exact hnodup
        have hrevkeys : (((paramPairs (splitSlash pattern)
            (splitSlash path)).reverse).map Prod.fst).Nodup := by
          rw [List.map_reverse, List.nodup_reverse]
          exact hkeys
        have hmem : (strDrop pq.1 1, pq.2) ∈
            (paramPairs (splitSlash pattern) (splitSlash path)).reverse := by
          rw [List.mem_reverse]
          exact paramPairs_mem_of_zip _ _ pq hpq hsw
        rw [nodupKeys_lookup _ _ _ hrevkeys hmem]
        rfl
      · intro kv hkv
        rw [hmp] at hkv
        rcases mem_insertPairs _ [] kv hkv with h | h
        · cases h
        · exact mem_paramPairs _ _ kv h
    · rintro ⟨pq, hpq, hsw, hne2⟩
      have hms := matchSegs_eq_none (splitSlash pattern) (splitSlash path)
        [] ⟨pq, hpq, hsw, hne2⟩
      simp only [matchPath]
      rw [if_neg hne, hnone]
      simp only [Bool.false_eq_true, if_false]
      rw [if_neg (by simp [hlen]), hms]

/-- C1 witness: against the index built from the example configuration,
the pattern `/user/:id` matches `/user/42` binding `id = 42`, and fails
to match the four-segment path `/x/y/z` (segment-count mismatch). -/
theorem C1_witness :
    (matchPath (pathParamsIndex [exampleEndpoint])
      "/user/:id" "/user/42").1 = true ∧
    List.lookup "id" (matchPath (pathParamsIndex [exampleEndpoint])
      "/user/:id" "/user/42").2 = some "42" ∧
    matchPath (pathParamsIndex [exampleEndpoint]) "/user/:id" "/x/y/z" =
      (false, []) := by
  have h := C1_pathmatcher_contract [exampleEndpoint] "/user/:id" "/user/42"
    (by decide) (by decide) (by decide)
  have hs := (h.2.2 (by decide) (by decide)).1 (by decide)
  have hlook := hs.2.1 (":id", "42") (by decide) (by decide)
  have h2 := C1_pathmatcher_contract [exampleEndpoint] "/user/:id" "/x/y/z"
    (by decide) (by decide) (by decide)
  exact ⟨hs.1, hlook, h2.2.1 (by decide)⟩

/-- C2: for every non-OPTIONS request, FileMount endpoints are evaluated
first, by prefix match in list order; then ApiRoute endpoints in
configuration order, the first one whose path matches and whose method
equals the request method producing the response (later routes are never
consulted — the outcome does not depend on them); and if no endpoint
matches, the response is HTTP 404 with body `{"error": "Not found"}` — in
particular when a path matches an ApiRoute but the method differs. -/
theorem C2_dispatch_precedence (fs : String → Option String)
    (jsonValid : String → Bool) (s : Server) (method path : String)
    (now : Int) (hm : method ≠ "OPTIONS") :
    (∀ l₁ fm l₂, s.config.endpoints = l₁ ++ fm :: l₂ →
      (∀ e ∈ l₁, e.folder ≠ "" → strStartsWith path e.path = false) →
      fm.folder ≠ "" → strStartsWith path fm.path = true →
      handleRequest fs jsonValid s method path now = (.fileMount fm, s)) ∧
    (∀ l₁ ep l₂, s.config.endpoints = l₁ ++ ep :: l₂ →
      (∀ e ∈ s.config.endpoints, e.folder ≠ "" →
        strStartsWith path e.path = false) →
      (∀ e ∈ l₁, e.folder = "" →
        ¬((matchPath s.pathParams e.path path).1 = true ∧
          e.method = method)) →
      ep.folder = "" → (matchPath s.pathParams ep.path path).1 = true →
      ep.method = method →
      handleRequest fs jsonValid s method path now =
        apiRespond fs jsonValid s ep method path
          (matchPath s.pathParams ep.path path).2 now) ∧
    ((∀ e ∈ s.config.endpoints, e.folder ≠ "" →
        strStartsWith path e.path = false) →
      (∀ e ∈ s.config.endpoints, e.folder = "" →
        ¬((matchPath s.pathParams e.path path).1 = true ∧
          e.method = method)) →
      handleRequest fs jsonValid s method path now =
        (.json 404 "\x7b\"error\": \"Not found\"\x7d", s)) := by
  refine ⟨?_, ?_, ?_⟩
  · intro l₁ fm l₂ heps h₁ hf hp
    unfold handleRequest
    rw [if_neg hm, heps, findFileMount_append_skip l₁ (fm :: l₂) path h₁,
      findFileMount_cons_of_hit fm l₂ path hf hp]
  · intro l₁ ep l₂ heps hnofm h₁ hf hmp hem
    unfold handleRequest
    rw [if_neg hm, findFileMount_eq_none s.config.endpoints path hnofm,
      heps, apiLoop_append_skip fs jsonValid s method path now l₁ (ep :: l₂) h₁]
    simp only [apiLoop]
    rw [if_neg (by simp [hf]), if_pos (by simp [hmp, hem])]
  · intro hnofm hnoapi
    unfold handleRequest
    rw [if_neg hm, findFileMount_eq_none s.config.endpoints path hnofm]
    have := apiLoop_append_skip fs jsonValid s method path now
      s.config.endpoints [] hnoapi
    rwa [List.append_nil] at this

/-- C2 witness: against the example configuration (one `GET /user/:id`
route), the request `POST /user/42` — path match, method mismatch —
answers HTTP 404 with body `{"error": "Not found"}`. -/
theorem C2_witness :
    handleRequest exampleFs allValid exampleServer "POST" "/user/42" 0 =
      (.json 404 "\x7b\"error\": \"Not found\"\x7d", exampleServer) :=
  (C2_dispatch_precedence exampleFs allValid exampleServer "POST"
    "/user/42" 0 (by decide)).2.2 (by decide) (by decide)

/-- C3: for every fixture file and empty parameter bindings, the resolver
returns exactly the raw content of the fixture file, unchanged (no
parsing, reformatting or substitution); consequently the response body of
a parameterless ApiRoute request is the fixture content exactly. -/
theorem C3_resolver_passthrough
    (fs : String → Option String) (jsonValid : String → Bool)
    (cfg : ConfigData) (ep : Endpoint) (content : String) (ttl now : Int)
    (hfs : fs ep.jsonPath = some content)
    (hfolder : ep.folder = "")
    (hmethod : ep.method ≠ "OPTIONS")
    (hcfg : cfg.endpoints = [ep]) :
    getJSONResponse fs jsonValid ep.jsonPath [] = .ok content ∧
    (handleRequest fs jsonValid (NewServer cfg ttl) ep.method ep.path now).1 =
      .json ep.status content := by
  constructor
  · simp [getJSONResponse, hfs]
  · simp [handleRequest, hmethod, NewServer, hcfg, findFileMount, hfolder,
      apiLoop, matchPath, apiRespond, cacheGet, List.lookup,
      getJSONResponse, hfs]

/-- C3 witness: the example route with no bindings answers with the raw
example fixture, byte for byte. -/
theorem C3_witness :
    getJSONResponse exampleFs allValid exampleEndpoint.jsonPath [] =
      .ok exampleFixture ∧
    (handleRequest exampleFs allValid (NewServer exampleConfig 1000)
        exampleEndpoint.method exampleEndpoint.path 0).1 =
      .json exampleEndpoint.status exampleFixture :=
  C3_resolver_passthrough exampleFs allValid exampleConfig exampleEndpoint
    exampleFixture 1000 0 rfl rfl (by decide) rfl

/-- C4: for every fixture content and non-empty bindings, the resolver
replaces every occurrence of the substring `:name` with the bound value
for each binding, then validates the result; if the substituted text
validates as JSON it is returned, otherwise the original unsubstituted
content is returned and the request still succeeds. -/
theorem C4_substitution_validation_fallback
    (fs : String → Option String) (jsonValid : String → Bool)
    (jsonPath content : String) (pathParams : List (String × String))
    (hfs : fs jsonPath = some content) (hne : pathParams ≠ []) :
    getJSONResponse fs jsonValid jsonPath pathParams =
      .ok (if jsonValid (substParams content pathParams) then
             substParams content pathParams
           else content) := by
  simp only [getJSONResponse, hfs, List.isEmpty_eq_true]
  rw [if_neg hne, apply_ite Except.ok]

/-- C4 witness: the example fixture `{"id":":id","name":"John"}` with
binding `id = 42` resolves to `{"id":"42","name":"John"}` under a
validator that accepts the substituted text, and to the original bytes
under a validator that rejects everything. -/
theorem C4_witness :
    getJSONResponse exampleFs allValid "user.json" [("id", "42")] =
      .ok exampleSubstituted ∧
    getJSONResponse exampleFs (fun _ => false) "user.json" [("id", "42")] =
      .ok exampleFixture := by
  constructor
  · have h := C4_substitution_validation_fallback exampleFs allValid
      "user.json" exampleFixture [("id", "42")] rfl (by decide)
    rw [h]
    simp [allValid, substParams, replaceAll, replaceAllL, exampleFixture,
      exampleSubstituted]
  · have h := C4_substitution_validation_fallback exampleFs
      (fun _ => false) "user.json" exampleFixture [("id", "42")] rfl
      (by decide)
    rw [h]
    simp

/-- C5 counterexample: the claim says `get` finds an entry exactly when
the current time is STRICTLY before its `expiresAt`; but after
`set("k", "v", ttl = 0)` at time 0 (so `expiresAt = 0`), `get("k")` at
time 0 — which is not strictly before `expiresAt` — still returns
`("v", true)`, because the code only treats `now > expiresAt` as
expired. -/
theorem C5_counterexample :
    (cacheGet (cacheSet [] "k" "v" 0 0) "k" 0).1 = some "v" ∧
    ¬ ((0 : Int) < 0 + 0) := by
  constructor
  · rfl
  · decide

/-- C5 (amended): `set(key, v, ttl)` with `0 ≤ ttl` followed immediately
by `get(key)` returns `(v, true)` and leaves the cache unchanged;
`get(key)` finds an entry exactly when one is present and the current
time is at or before its `expiresAt` (= set-time + ttl), returning the
stored content; once the clock has advanced strictly beyond
set-time + ttl, `get(key)` reports not-found. -/
theorem C5_cache_contract :
    (∀ (cache : CacheMap) (key v : String) (now ttl : Int), 0 ≤ ttl →
        cacheGet (cacheSet cache key v now ttl) key now =
          (some v, cacheSet cache key v now ttl)) ∧
    (∀ (cache : CacheMap) (key : String) (now : Int),
        ((cacheGet cache key now).1.isSome = true ↔
          ∃ cr, List.lookup key cache = some cr ∧ now ≤ cr.expiration) ∧
        (∀ cr, List.lookup key cache = some cr → now ≤ cr.expiration →
          (cacheGet cache key now).1 = some cr.content)) ∧
    (∀ (cache : CacheMap) (key v : String) (setTime ttl now : Int),
        setTime + ttl < now →
        (cacheGet (cacheSet cache key v setTime ttl) key now).1 = none) := by
  refine ⟨?_, ?_, ?_⟩
  · intro cache key v now ttl httl
    simp only [cacheGet, cacheSet, mapInsert, List.lookup, beq_self_eq_true]
    rw [if_neg (by omega)]
  · intro cache key now
    constructor
    · unfold cacheGet
      cases hl : List.lookup key cache with
      | none => simp [hl]
      | some cr =>
        by_cases hexp : now > cr.expiration
        · simp only [hl, if_pos hexp, Option.isSome_none,
            Bool.false_eq_true, false_iff, not_exists]
          rintro cr2 ⟨hcr2, hle⟩
          cases hcr2
          omega
        · simp only [hl, if_neg hexp, Option.isSome_some, true_iff]
          exact ⟨cr, rfl, by omega⟩
    · intro cr hl hle
      unfold cacheGet
      simp only [hl]
      rw [if_neg (by omega)]
  · intro cache key v setTime ttl now hlt
    simp only [cacheGet, cacheSet, mapInsert, List.lookup, beq_self_eq_true]
    rw [if_pos (by omega)]

/-- C5 witness: `set("k", "v", ttl = 5)` at time 0; `get("k")` at time 0
returns `("v", true)`, and at time 6 (strictly past `expiresAt = 5`)
reports not-found. -/
theorem C5_witness :
    cacheGet (cacheSet [] "k" "v" 0 5) "k" 0 =
      (some "v", cacheSet [] "k" "v" 0 5) ∧
    (cacheGet (cacheSet [] "k" "v" 0 5) "k" 6).1 = none :=
  ⟨C5_cache_contract.1 [] "k" "v" 0 5 (by decide),
   C5_cache_contract.2.2 [] "k" "v" 0 5 6 (by decide)⟩

/-- C6: if a reload succeeds, the active configuration carries the new
endpoint list and the response cache is empty, the cache having been
cleared exactly once; if the reload fails, an error is returned and both
the active configuration and every outstanding cache entry are left
completely unchanged.  The `Config.Reload` swap and its failure behaviour
are from the source; the wiring that invokes `ResponseCache.clear()` on a
successful reload follows the spec (`reloadSystem`). -/
theorem C6_reload_contract :
    (∀ (stat : String → Bool) (parsed : Option ConfigData)
        (st : SystemState) (newConfig : ConfigData),
        loadConfig stat parsed = .ok newConfig →
        reloadSystem stat parsed st =
          ({ config := (reloadConfig stat parsed st.config).1, cache := [] },
            none, 1) ∧
        (reloadConfig stat parsed st.config).1.endpoints =
          newConfig.endpoints) ∧
    (∀ (stat : String → Bool) (parsed : Option ConfigData)
        (st : SystemState) (e : ConfigError),
        loadConfig stat parsed = .error e →
        reloadSystem stat parsed st = (st, some e, 0) ∧
        reloadConfig stat parsed st.config = (st.config, some e)) := by
  constructor
  · intro stat parsed st newConfig h
    simp [reloadSystem, reloadConfig, cacheClear, h]
  · intro stat parsed st e h
    simp [reloadSystem, reloadConfig, h]

/-- C6 witness: a successful reload of the example configuration clears a
non-empty cache and installs the new endpoint list; a reload whose config
file fails to parse returns an error and changes nothing. -/
theorem C6_witness :
    reloadSystem allExist (some exampleConfig)
        { config := {}, cache := [("k", ⟨"v", 9⟩)] } =
      ({ config := (reloadConfig allExist (some exampleConfig) {}).1,
         cache := [] }, none, 1) ∧
    reloadSystem allExist none
        { config := {}, cache := [("k", ⟨"v", 9⟩)] } =
      ({ config := {}, cache := [("k", ⟨"v", 9⟩)] },
        some .parseError, 0) :=
  ⟨(C6_reload_contract.1 allExist (some exampleConfig)
      { config := {}, cache := [("k", ⟨"v", 9⟩)] }
      (applyDefaults exampleConfig) rfl).1,
   (C6_reload_contract.2 allExist none
      { config := {}, cache := [("k", ⟨"v", 9⟩)] } .parseError rfl).1⟩

/-- C8 counterexample: the claim says `load` defaults `logPath` to
"stdout"; but loading a parse-success configuration with an absent
(empty) `logPath` succeeds with `logPath` still empty — `LoadConfig`
defaults only `port`, `logLevel` and `logFormat`. -/
theorem C8_counterexample :
    loadConfig allExist (some exampleConfig) =
      .ok (applyDefaults exampleConfig) ∧
    (applyDefaults exampleConfig).logPath = "" ∧
    ("" : String) ≠ "stdout" := by
  refine ⟨rfl, rfl, by decide⟩

/-- C8 (amended): for every config file that parses successfully and
validates, `load` fills in defaults before validation and activation —
`port` becomes 3000 when parsed as 0 (i.e. absent), `logLevel` "info"
when empty, `logFormat` "text" when empty — and every other field,
`logPath` included, is kept exactly as parsed; `logPath` is NOT defaulted
to "stdout" by `load`. -/
theorem C8_defaulting (stat : String → Bool) (c loaded : ConfigData)
    (h : loadConfig stat (some c) = .ok loaded) :
    loaded = applyDefaults c ∧
    loaded.port = (if c.port = 0 then 3000 else c.port) ∧
    loaded.logLevel = (if c.logLevel = "" then "info" else c.logLevel) ∧
    loaded.logFormat = (if c.logFormat = "" then "text" else c.logFormat) ∧
    loaded.logPath = c.logPath ∧
    loaded.host = c.host ∧
    loaded.endpoints = c.endpoints := by
  have hl : loaded = applyDefaults c := by
    simp only [loadConfig] at h
    split at h
    · cases h
    · cases h
      rfl
  subst hl
  refine ⟨rfl, ?_, ?_, ?_, rfl, rfl, rfl⟩ <;> rfl

theorem append_colon_inj_data (xs zs ys ws : List Char)
    (hy : ':' ∉ ys) (hw : ':' ∉ ws)
    (h : xs ++ ':' :: ys = zs ++ ':' :: ws) : xs = zs ∧ ys = ws := by
  induction xs generalizing zs with
  | nil =>
    cases zs with
    | nil =>
      simp only [List.nil_append] at h
      exact ⟨rfl, by injection h⟩
    | cons z zs =>
      simp only [List.nil_append, List.cons_append] at h
      injection h with h1 h2
      subst h1
      exact absurd (h2 ▸ (by simp : ':' ∈ zs ++ ':' :: ws)) hy
  | cons x xs ih =>
    cases zs with
    | nil =>
      simp only [List.cons_append, List.nil_append] at h
      injection h with h1 h2
      subst h1
      exact absurd ((h2.symm) ▸ (by simp : ':' ∈ xs ++ ':' :: ys)) hw
    | cons z zs =>
      simp only [List.cons_append] at h
      injection h with h1 h2
      obtain ⟨he, hys⟩ := ih zs h2
      exact ⟨by rw [h1, he], hys⟩

theorem pathMethod_key_inj (p₁ m₁ p₂ m₂ : String)
    (h₁ : ':' ∉ m₁.data) (h₂ : ':' ∉ m₂.data) :
    p₁ ++ ":" ++ m₁ = p₂ ++ ":" ++ m₂ ↔ p₁ = p₂ ∧ m₁ = m₂ := by
  constructor
  · intro h
    have hd : p₁.data ++ ':' :: m₁.data = p₂.data ++ ':' :: m₂.data := by
      have := congrArg String.data h
      simpa [String.data_append] using this
    obtain ⟨hp, hm⟩ := append_colon_inj_data _ _ _ _ h₁ h₂ hd
    exact ⟨String.ext hp, String.ext hm⟩
  · rintro ⟨rfl, rfl⟩
    rfl

theorem validateLoop_eq_spec (stat : String → Bool) (eps : List Endpoint)
    (prev : List (String × String))
    (heps : ∀ ep ∈ eps, ':' ∉ ep.method.data)
    (hprev : ∀ pm ∈ prev, ':' ∉ pm.2.data) :
    validateLoop stat (prev.map (fun pm => pm.1 ++ ":" ++ pm.2)) eps =
      specValidateLoop stat prev eps := by
  induction eps generalizing prev with
  | nil => rfl
  | cons ep rest ih =>
    have hm : ':' ∉ ep.method.data := heps ep (by simp)
    have hrest : ∀ e ∈ rest, ':' ∉ e.method.data :=
      fun e he => heps e (by simp [he])
    simp only [validateLoop, specValidateLoop]
    by_cases hp : ep.path = ""
    · simp [hp]
    · rw [if_neg hp, if_neg hp]
      by_cases hf : ep.folder ≠ ""
      · rw [if_pos hf, if_pos hf]
        by_cases hst : stat ep.folder
        · rw [if_neg (by simp [hst]), if_neg (by simp [hst])]
          exact ih prev hrest hprev
        · rw [if_pos (by simp [hst]), if_pos (by simp [hst])]
      · rw [if_neg hf, if_neg hf]
        have hdup : ((ep.path ++ ":" ++ ep.method) ∈
            prev.map (fun pm => pm.1 ++ ":" ++ pm.2)) ↔
            ((ep.path, ep.method) ∈ prev) := by
          rw [List.mem_map]
          constructor
          · rintro ⟨pm, hpm, hkey⟩
            obtain ⟨hp1, hm1⟩ := (pathMethod_key_inj pm.1 pm.2 ep.path
              ep.method (hprev pm hpm) hm).mp hkey
            have : pm = (ep.path, ep.method) := Prod.ext hp1 hm1
            rwa [this] at hpm
          · intro hpm
            exact ⟨(ep.path, ep.method), hpm, rfl⟩
        by_cases hd : (ep.path, ep.method) ∈ prev
        · rw [if_pos (hdup.mpr hd), if_pos hd]
        · rw [if_neg (fun hh => hd (hdup.mp hh)), if_neg hd]
          by_cases hjson : ep.jsonPath ≠ "" ∧ stat ep.jsonPath = false
          · rw [if_pos (by simp [hjson.1, hjson.2]),
              if_pos (by simp [hjson.1, hjson.2])]
          · rw [if_neg ?hc, if_neg ?hc2]
            case hc =>
              intro hh
              simp only [Bool.and_eq_true, decide_eq_true_eq,
                Bool.not_eq_true'] at hh
              exact hjson hh
            case hc2 =>
              intro hh
              simp only [Bool.and_eq_true, decide_eq_true_eq,
                Bool.not_eq_true'] at hh
              exact hjson hh
            have : ((ep.path, ep.method) :: prev).map
                (fun pm => pm.1 ++ ":" ++ pm.2) =
                (ep.path ++ ":" ++ ep.method) ::
                  prev.map (fun pm => pm.1 ++ ":" ++ pm.2) := by simp
            rw [← this]
            exact ih ((ep.path, ep.method) :: prev) hrest
              (by
                intro pm hpm
                rcases List.mem_cons.mp hpm with h | h
                · rw [h]; exact hm
                · exact hprev pm h)

/-- C7: validation fails with NoEndpoints on an empty endpoint list,
EmptyPath on a blank path, DuplicateEndpoint when the same (path, method)
pair appears twice among ApiRoute entries (FileMount entries exempt),
FixtureNotFound when an ApiRoute's configured fixture file is missing
from disk, FolderNotFound when a FileMount's folder is missing, endpoints
being checked in list order with the first failure aborting: the source's
string-keyed validator coincides with this taxonomy, stated as
`specValidateConfig`, whenever no HTTP method name contains a `':'`. -/
theorem C7_validation_taxonomy (stat : String → Bool) (c : ConfigData)
    (hm : ∀ ep ∈ c.endpoints, ':' ∉ ep.method.data) :
    validateConfig stat c = specValidateConfig stat c := by
  unfold validateConfig specValidateConfig
  by_cases he : c.endpoints.isEmpty
  · rw [if_pos he, if_pos he]
  · rw [if_neg he, if_neg he]
    exact validateLoop_eq_spec stat c.endpoints [] hm (by simp)

/-- A configuration declaring the duplicate endpoint `{GET, /x}` twice. -/
def dupConfig : ConfigData :=
  { endpoints := [{ method := "GET", status := 200, path := "/x",
                    jsonPath := "a.json" },
                  { method := "GET", status := 200, path := "/x",
                    jsonPath := "a.json" }] }

/-- C7 witness: a config declaring duplicate `{GET, /x}` endpoints fails
validation (and hence load) with DuplicateEndpoint, both under the
source's validator and under the spec's taxonomy. -/
theorem C7_witness :
    validateConfig allExist dupConfig = specValidateConfig allExist dupConfig ∧
    specValidateConfig allExist dupConfig = some .duplicateEndpoint ∧
    loadConfig allExist (some dupConfig) = .error .duplicateEndpoint :=
  ⟨C7_validation_taxonomy allExist dupConfig (by decide), by decide, rfl⟩

theorem apiRespond_pathParams (fs : String → Option String)
    (jsonValid : String → Bool) (s : Server) (ep : Endpoint)
    (method path : String) (pv : List (String × String)) (now : Int) :
    (apiRespond fs jsonValid s ep method path pv now).2.pathParams =
      s.pathParams := by
  unfold apiRespond
  split
  all_goals
    rcases hc : cacheGet s.cache (method ++ ":" ++ path) now with ⟨o, cache⟩
    cases o <;> simp [hc]

theorem apiLoop_pathParams (fs : String → Option String)
    (jsonValid : String → Bool) (s : Server) (method path : String)
    (now : Int) (l : List Endpoint) :
    (apiLoop fs jsonValid s method path now l).2.pathParams =
      s.pathParams := by
  induction l with
  | nil => rfl
  | cons e rest ih =>
    simp only [apiLoop]
    split
    · exact ih
    · split
      · exact apiRespond_pathParams fs jsonValid s e method path _ now
      · exact ih

/-- C10 (implicit): the index of parametrized patterns (`PathParams`) is
populated only at construction (`NewServer`), from the endpoint list
current at that moment; request handling, cache clearing and
configuration reload leave it unchanged; consequently a pattern with a
`:name` segment that is absent from the index matches no request path
other than the pattern string itself — in particular a parametrized route
introduced by a later reload never matches a concrete request path. -/
theorem C10_pathparams_construction_only :
    (∀ (cfg : ConfigData) (ttl : Int),
      (NewServer cfg ttl).pathParams = pathParamsIndex cfg.endpoints) ∧
    (∀ (fs : String → Option String) (jsonValid : String → Bool)
        (s : Server) (method path : String) (now : Int),
      (handleRequest fs jsonValid s method path now).2.pathParams =
        s.pathParams) ∧
    (∀ s : Server, (clearCache s).pathParams = s.pathParams) ∧
    (∀ (stat : String → Bool) (parsed : Option ConfigData) (s : Server),
      (serverReload stat parsed s).1.pathParams = s.pathParams) ∧
    (∀ (index : List (String × List String)) (pattern path : String),
      (∃ seg ∈ splitSlash pattern, isParamSeg seg = true) →
      List.lookup pattern index = none → path ≠ pattern →
      matchPath index pattern path = (false, [])) := by
  refine ⟨fun _ _ => rfl, ?_, fun _ => rfl, fun _ _ _ => rfl, ?_⟩
  · intro fs jsonValid s method path now
    unfold handleRequest
    split
    · rfl
    · split
      · rfl
      · exact apiLoop_pathParams fs jsonValid s method path now _
  · intro index pattern path _ hlk hne
    unfold matchPath
    rw [if_neg (Ne.symm hne), if_pos (by simp [hlk])]

/-- C10 witness: a parametrized route `/post/:pid` brought in by a reload
of the example server is absent from the construction-time index, and the
reloaded server still fails to match `GET /post/7`'s path against it. -/
theorem C10_witness :
    (serverReload allExist
        (some { endpoints := [{ method := "GET", path := "/post/:pid",
                                jsonPath := "p.json" }] })
        exampleServer).1.pathParams = exampleServer.pathParams ∧
    matchPath exampleServer.pathParams "/post/:pid" "/post/7" =
      (false, []) :=
  ⟨C10_pathparams_construction_only.2.2.2.1 allExist
      (some { endpoints := [{ method := "GET", path := "/post/:pid",
                              jsonPath := "p.json" }] }) exampleServer,
   C10_pathparams_construction_only.2.2.2.2 exampleServer.pathParams
      "/post/:pid" "/post/7" (by decide) (by decide) (by decide)⟩

/-- C8 witness: loading the example configuration (all optional fields
absent) yields port 3000, logLevel "info", logFormat "text" and an
unchanged empty logPath. -/
theorem C8_witness :
    (applyDefaults exampleConfig).port = 3000 ∧
    (applyDefaults exampleConfig).logLevel = "info" ∧
    (applyDefaults exampleConfig).logFormat = "text" ∧
    (applyDefaults exampleConfig).logPath = "" ∧
    (applyDefaults exampleConfig).endpoints = [exampleEndpoint] := by
  obtain ⟨-, h1, h2, h3, h4, -, h6⟩ :=
    C8_defaulting allExist exampleConfig (applyDefaults exampleConfig) rfl
  exact ⟨by rw [h1]; rfl, by rw [h2]; rfl, by rw [h3]; rfl, h4, h6⟩

end GoJsonServer
